import Mathlib

/-!
Verification of the SET news watcher (`scripts/check_set_news.py` and
`scripts/mailer.py`).

The development is a shallow embedding of the script's pure core:

* JSON-item records are association lists `Item` from string keys to values;
  the value domain is restricted to JSON nulls and strings, which is what the
  item-normalizer functions (`extract_id`, `extract_headline`,
  `extract_datetime`, `extract_url`) actually discriminate on
  (`item.get(k)`, `v is not None`, `str(v).strip()`).
* `json.dumps(item, sort_keys=True, ensure_ascii=False)` — the fallback id of
  `extract_id` — is embedded as `dumpsSorted`: entries are sorted by key in
  code-point order and serialized with the escaping rules of CPython's
  `json.encoder` (backslash, double quote, the five short control escapes,
  `\u00XX` for the remaining control characters; `ensure_ascii=False` leaves
  all other characters literal).
* `str.strip()` is embedded as `pyStrip` over the ASCII whitespace characters.
* The orchestrator `main` (from the state load at line 318 to the state save
  at line 408; the `SMTP_TEST` short-circuit returns before this region) is
  embedded as `run`, with the network reads (`fetch_news`,
  `fetch_news_detail_text`) and the delivery outcome of `send_email` passed
  in as parameters, and an `Except` result: `Except.error` models an
  uncaught exception from `send_email` (which in the script propagates out
  of `main` before `save_state` is reached).
* The regex helper `_pick` is passed to `parse_buyback_fields` as an opaque
  `pick : String → String → String` parameter: the spec itself declares the
  regex's stop condition undefined, and every property proved below holds
  for an arbitrary `pick`.
* The persistent state file is embedded for `load_state` as `StateFileRead`
  (absent / unreadable-or-unparseable / parsed JSON value `PyVal`), and the
  seen-set used by a run as a `Finset String` (a Python `set` has no
  observable order).
-/

/-! ## Generic string machinery -/

/-- Predicate `charsStartWith p l` is true iff the char list `p` is an initial segment
of `l` (the character-level meaning of Python's `startswith`). -/
def charsStartWith : List Char → List Char → Bool
  | [], _ => true
  | _ :: _, [] => false
  | a :: as, b :: bs => a == b && charsStartWith as bs

/-- Predicate `charsContain needle hay` is true iff `needle` occurs contiguously inside
`hay`: the character-level meaning of Python's `needle in hay`. -/
def charsContain (needle : List Char) : List Char → Bool
  | [] => needle.isEmpty
  | b :: bs => charsStartWith needle (b :: bs) || charsContain needle bs

/-- String-level substring test, Python's `needle in hay`. -/
def strContains (hay needle : String) : Bool :=
  charsContain needle.data hay.data

/-- The characters Python's `str.strip()` removes (ASCII whitespace; the
script's data is Thai text and JSON, where only these occur). -/
def isPySpace (c : Char) : Bool :=
  c == ' ' || c == '\t' || c == '\n' || c == '\r' || c == '\x0b' || c == '\x0c'

/-- Python's `str.strip()`: drop leading and trailing whitespace. -/
def pyStrip (s : String) : String :=
  ⟨((s.data.dropWhile isPySpace).reverse.dropWhile isPySpace).reverse⟩

/-- Code-point-wise lexicographic comparison of char lists: Python's `<=` on
strings, the order `sorted` (and hence `json.dumps(…, sort_keys=True)`)
uses for keys. -/
def charsLe : List Char → List Char → Bool
  | [], _ => true
  | _ :: _, [] => false
  | a :: as, b :: bs =>
    if a.toNat < b.toNat then true
    else if b.toNat < a.toNat then false
    else charsLe as bs

/-! ## JSON values and item records

A news item as handed to the script is a JSON object decoded by
`response.json()`: a Python dict with string keys.  The item-normalizer
functions only ever distinguish `None` from other values and convert values
with `str(...)`, and every id/headline/url field in the SET payload is a
string or null, so values are modelled as JSON null or a JSON string. -/

inductive JVal where
  | jnull : JVal
  | jstr : String → JVal
deriving DecidableEq

/-- An item record: the entry list of a Python dict (keys are unique in an
actual dict; theorems that need this take a `keysNodup` hypothesis). -/
abbrev Item := List (String × JVal)

/-- The keys of an item record are pairwise distinct (true of any Python
dict). -/
def keysNodup (item : Item) : Prop := (item.map Prod.fst).Nodup

/-- Python `item.get(k)`: the value stored at the first entry with key `k`, if
any. -/
def getVal : Item → String → Option JVal
  | [], _ => none
  | (k2, v) :: rest, k => if k2 = k then some v else getVal rest k

/-! ## `json.dumps(item, sort_keys=True, ensure_ascii=False)`

The fallback branch of `extract_id`.  CPython's `json.encoder` with
`ensure_ascii=False` escapes exactly `\` and `"` and the C0 control
characters (five of them by short escapes, the rest as `\u00XX` with
lowercase hex), leaves every other character literal, separates entries by
`", "` and key from value by `": "`, and with `sort_keys=True` emits the
entries in code-point order of their keys. -/

/-- Lowercase hexadecimal digit for `n < 16`. -/
def hexDigitChar (n : Nat) : Char :=
  if n < 10 then Char.ofNat (48 + n) else Char.ofNat (87 + n)

/-- JSON escape of one character (CPython `json.encoder`,
`ensure_ascii=False`). -/
def escChar (c : Char) : List Char :=
  if c = '"' then ['\\', '"']
  else if c = '\\' then ['\\', '\\']
  else if c = '\x08' then ['\\', 'b']
  else if c = '\x09' then ['\\', 't']
  else if c = '\x0a' then ['\\', 'n']
  else if c = '\x0c' then ['\\', 'f']
  else if c = '\x0d' then ['\\', 'r']
  else if c.toNat < 32 then
    ['\\', 'u', '0', '0', hexDigitChar (c.toNat / 16), hexDigitChar (c.toNat % 16)]
  else [c]

/-- JSON escape of a character sequence. -/
def escStr : List Char → List Char
  | [] => []
  | c :: cs => escChar c ++ escStr cs

/-- Serialization of one JSON value. -/
def serVal : JVal → List Char
  | JVal.jnull => ['n', 'u', 'l', 'l']
  | JVal.jstr s => '"' :: escStr s.data ++ ['"']

/-- Serialization of one `"key": value` entry. -/
def serEntry (e : String × JVal) : List Char :=
  '"' :: escStr e.1.data ++ '"' :: ':' :: ' ' :: serVal e.2

/-- Continuation of an entry list after the first entry: each further entry
is preceded by the `", "` separator. -/
def serTail : List (String × JVal) → List Char
  | [] => []
  | e :: es => ',' :: ' ' :: serEntry e ++ serTail es

/-- Join of the serialized entries by `", "`. -/
def serEntries : List (String × JVal) → List Char
  | [] => []
  | e :: es => serEntry e ++ serTail es

/-- Key order used by `sort_keys=True`: code-point-wise comparison of the
keys. -/
def entLe (p q : String × JVal) : Prop := charsLe p.1.data q.1.data = true

instance : DecidableRel entLe := fun p q => by
  unfold entLe; exact inferInstance

/-- The entry list in ascending key order (Python's `sorted`; the embedding
uses insertion sort, which agrees with it on duplicate-free keys). -/
def sortEntries (item : Item) : Item :=
  List.insertionSort entLe item

/-- Embedding of `json.dumps(item, sort_keys=True, ensure_ascii=False)`. -/
def dumpsSorted (item : Item) : String :=
  ⟨'\x7b' :: serEntries (sortEntries item) ++ ['\x7d']⟩

/-! ## Item normalizer (`extract_id`, `extract_headline`,
`extract_datetime`, `extract_url`) -/

/-- The shared probing loop of the extractors: first key whose value is
non-null with non-blank `str(v)`, returning `str(v)` unchanged
(`extract_id` style). -/
def tryKeys (item : Item) : List String → Option String
  | [] => none
  | k :: ks =>
    match getVal item k with
    | some (JVal.jstr s) => if pyStrip s = "" then tryKeys item ks else some s
    | _ => tryKeys item ks

/-- Probing loop returning `str(v).strip()` (`extract_headline` /
`extract_datetime` style). -/
def tryKeysStrip (item : Item) : List String → Option String
  | [] => none
  | k :: ks =>
    match getVal item k with
    | some (JVal.jstr s) => if pyStrip s = "" then tryKeysStrip item ks else some (pyStrip s)
    | _ => tryKeysStrip item ks

/-- Embedding of `extract_id` (script lines 44–53): native id keys, then URL-ish keys,
then the sorted-keys JSON serialization of the whole record. -/
def extract_id (item : Item) : String :=
  match tryKeys item ["id", "newsId", "news_id"] with
  | some s => s
  | none =>
    match tryKeys item ["url", "link", "detailUrl", "detailsUrl"] with
    | some s => s
    | none => dumpsSorted item

/-- Embedding of `extract_headline` (script lines 56–61). -/
def extract_headline (item : Item) : String :=
  match tryKeysStrip item ["headline", "title", "subject"] with
  | some s => s
  | none => "(no headline)"

/-- Embedding of `extract_datetime` (script lines 64–69). -/
def extract_datetime (item : Item) : String :=
  match tryKeysStrip item ["datetime", "dateTime", "publishDate", "publish_date", "date"] with
  | some s => s
  | none => ""

/-- Embedding of `extract_url` (script lines 72–78), with the module-level `LANG` and
`SYMBOL` passed explicitly. -/
def extract_url (lang symbol : String) (item : Item) : String :=
  let lang_path := if lang = "th" then "th" else "en"
  let fallback :=
    "https://www.set.or.th/" ++ lang_path ++ "/market/news-and-alert/newsdetails?id="
      ++ extract_id item ++ "&symbol=" ++ symbol
  match getVal item "url" with
  | some (JVal.jstr s) => if s ≠ "" ∧ pyStrip s ≠ "" then pyStrip s else fallback
  | _ => fallback

/-- Embedding of `headline_matches` (script lines 81–86), with the module-level
`HEADLINE_FILTER` and `FILTER_MODE` passed explicitly. -/
def headline_matches (filt mode headline : String) : Bool :=
  if filt = "" then true
  else if mode = "contains" then strContains headline filt
  else headline == filt

/-! ## Field extractor (`_pick`, `parse_buyback_fields`) -/

/-- A field map, the entry list of the Python dict produced by
`parse_buyback_fields` (and consumed by `format_buyback_summary`). -/
abbrev FieldMap := List (String × String)

/-- Dict lookup on a field map (`k in fields` / `fields[k]`). -/
def lookupF : FieldMap → String → Option String
  | [], _ => none
  | (k2, v) :: rest, k => if k2 = k then some v else lookupF rest k

/-- Python `fields.get(k, "")`. -/
def getF (fields : FieldMap) (k : String) : String :=
  match lookupF fields k with
  | some v => v
  | none => ""

/-- Replace the value at key `k` (`fields[k] = v` on a present key; on an
absent key the script's guard short-circuits before the assignment, and
this helper leaves the map unchanged). -/
def setF : FieldMap → String → String → FieldMap
  | [], _, _ => []
  | (k2, v2) :: rest, k, v =>
    if k2 = k then (k2, v) :: rest else (k2, v2) :: setF rest k v

/-- Embedding of `parse_buyback_fields` (script lines 215–243).  The regex helper
`_pick(t, label)` is the opaque parameter `pick label t`: the spec leaves
the regex's stop condition undefined, and the properties proved below hold
for every `pick`.  The label-variation fix of lines 240–241 is kept as
written (its guard probes a key that is not in the dict, so it never
fires). -/
def parse_buyback_fields (pick : String → String → String) (t : String) : FieldMap :=
  let fields : FieldMap := [
    ("เรื่อง", pick "เรื่อง" t),
    ("วันที่รายงานผล", pick "วันที่รายงานผล" t),
    ("วิธีการซื้อหุ้นคืน", pick "วิธีการซื้อหุ้นคืน" t),
    ("วันที่ครบกำหนดโครงการ", pick "วันที่ครบกำหนดโครงการ" t),
    ("วันที่คณะกรรมการมีมติ", pick "วันที่คณะกรรมการมีมติ" t),
    ("จำนวนหุ้นซื้อคืนสูงสุดตามโครงการ (หุ้น)", pick "จำนวนหุ้นซื้อคืนสูงสุดตามโครงการ (หุ้น)" t),
    ("%ของจำนวนหุ้นซื้อคืนสูงสุดต่อจำนวนหุ้นที่ชำระแล้ว", pick "%ของจำนวนหุ้นซื้อคืนสูงสุดต่อจำนวนหุ้นที่ชำระแล้ว" t),
    ("วันที่ซื้อหุ้นคืน", pick "วันที่ซื้อหุ้นคืน" t),
    ("จำนวนหุ้นซื้อคืน(หุ้น)", pick "จำนวนหุ้นซื้อคืน(หุ้น)" t),
    ("ราคาที่ซื้อต่อหุ้นหรือราคาสูงสุด(บาท/หุ้น)", pick "ราคาที่ซื้อต่อหุ้นหรือราคาสูงสุด(บาท/หุ้น)" t),
    ("ราคาต่ำสุด(บาท/หุ้น)", pick "ราคาต่ำสุด(บาท/หุ้น)" t),
    ("มูลค่ารวม(บาท)", pick "มูลค่ารวม(บาท)" t),
    ("จำนวนรวมของหุ้นซื้อคืนในโครงการจนถึงปัจจุบัน", pick "จำนวนรวมของหุ้นซื้อคืนในโครงการจนถึงปัจจุบัน" t),
    ("%ของจำนวนหุ้นซื้อคืนต่อจำนวนหุ้นที่ชำระแล้ว", pick "%ของจำนวนหุ้นซื้อหุ้นคืนต่อจำนวนหุ้นที่ชำระแล้ว" t),
    ("มูลค่ารวมที่ซื้อคืน(บาท)", pick "มูลค่ารวมที่ซื้อคืน(บาท)" t)]
  let fields :=
    match lookupF fields "%ของจำนวนหุ้นซื้อหุ้นคืนต่อจำนวนหุ้นที่ชำระแล้ว" with
    | some v =>
      if v = "" then
        setF fields "%ของจำนวนหุ้นซื้อหุ้นคืนต่อจำนวนหุ้นที่ชำระแล้ว"
          (pick "%ของจำนวนหุ้นซื้อคืนต่อจำนวนหุ้นที่ชำระแล้ว" t)
      else fields
    | none => fields
  fields.filter (fun p => p.2 != "")

/-! ## Notification composer (`format_buyback_summary`) -/

/-- The `lines` list built by `format_buyback_summary` (script lines
246–299), before the final `"\n".join`.  Each `if "k" in fields:` guard
becomes a `match` on `lookupF`, each `if max_sh or max_pct:` truthiness
guard a test against `""`, and each f-string a concatenation; the two
`.strip()` calls are `pyStrip`. -/
def format_buyback_lines (fields : FieldMap) (link api_dt : String) : List String :=
  ["รายงานผลการซื้อหุ้นคืน (สรุป)",
   "Time (SET): " ++ (if api_dt = "" then "(no timestamp)" else api_dt),
   "Link: " ++ link,
   ""]
  ++ (match lookupF fields "เรื่อง" with
      | some v => ["เรื่อง: " ++ v]
      | none => [])
  ++ (match lookupF fields "วันที่รายงานผล" with
      | some v => ["วันที่รายงานผล: " ++ v]
      | none => [])
  ++ (match lookupF fields "วิธีการซื้อหุ้นคืน" with
      | some v => ["วิธีการ: " ++ v]
      | none => [])
  ++ (match lookupF fields "วันที่ครบกำหนดโครงการ" with
      | some v => ["วันที่ครบกำหนดโครงการ: " ++ v]
      | none => [])
  ++ (match lookupF fields "วันที่คณะกรรมการมีมติ" with
      | some v => ["วันที่คณะกรรมการมีมติ: " ++ v]
      | none => [])
  ++ (let max_sh := getF fields "จำนวนหุ้นซื้อคืนสูงสุดตามโครงการ (หุ้น)"
      let max_pct := getF fields "%ของจำนวนหุ้นซื้อคืนสูงสุดต่อจำนวนหุ้นที่ชำระแล้ว"
      if max_sh = "" ∧ max_pct = "" then []
      else [pyStrip ("หุ้นซื้อคืนสูงสุดตามโครงการ: " ++ max_sh ++ " หุ้น (" ++ max_pct ++ "%)")])
  ++ (match lookupF fields "วันที่ซื้อหุ้นคืน" with
      | some v =>
        ["", "ผลการซื้อหุ้นคืน (ล่าสุด)", "วันที่ซื้อหุ้นคืน: " ++ v]
        ++ (match lookupF fields "จำนวนหุ้นซื้อคืน(หุ้น)" with
            | some w => ["จำนวนหุ้นซื้อคืน: " ++ w ++ " หุ้น"]
            | none => [])
        ++ (let lo := getF fields "ราคาต่ำสุด(บาท/หุ้น)"
            let hi := getF fields "ราคาที่ซื้อต่อหุ้นหรือราคาสูงสุด(บาท/หุ้น)"
            if lo = "" ∧ hi = "" then []
            else [pyStrip ("ช่วงราคา: " ++ lo ++ " - " ++ hi ++ " บาท/หุ้น")])
        ++ (match lookupF fields "มูลค่ารวม(บาท)" with
            | some w => ["มูลค่ารวม: " ++ w ++ " บาท"]
            | none => [])
      | none => [])
  ++ (let cum_sh := getF fields "จำนวนรวมของหุ้นซื้อคืนในโครงการจนถึงปัจจุบัน"
      let cum_pct := getF fields "%ของจำนวนหุ้นซื้อหุ้นคืนต่อจำนวนหุ้นที่ชำระแล้ว"
      let cum_val := getF fields "มูลค่ารวมที่ซื้อคืน(บาท)"
      if cum_sh = "" ∧ cum_val = "" ∧ cum_pct = "" then []
      else
        ["", "สะสมทั้งโครงการ (ถึงปัจจุบัน)"]
        ++ (if cum_sh = "" then []
            else [pyStrip ("จำนวนสะสม: " ++ cum_sh ++ " หุ้น (" ++ cum_pct ++ "%)")])
        ++ (if cum_val = "" then []
            else ["มูลค่าสะสม: " ++ cum_val ++ " บาท"]))

/-- Embedding of `format_buyback_summary`: the joined message. -/
def format_buyback_summary (fields : FieldMap) (link api_dt : String) : String :=
  String.intercalate "\n" (format_buyback_lines fields link api_dt)

/-- The per-item block built in `main` (script lines 369–385): the parsed
summary if any field was extracted, else the fixed fallback block. -/
def itemBlock (pick : String → String → String) (lang symbol : String)
    (item : Item) (pageText : Option String) : String :=
  let api_dt := extract_datetime item
  let url := extract_url lang symbol item
  let txt := match pageText with | some t => t | none => ""
  let fields := parse_buyback_fields pick txt
  if fields = [] then
    "รายงานผลการซื้อหุ้นคืน (สรุป)\n"
      ++ "Time (SET): " ++ (if api_dt = "" then "(no timestamp)" else api_dt) ++ "\n"
      ++ "Link: " ++ url ++ "\n\n"
      ++ "(Could not parse structured fields from detail page)\n"
  else format_buyback_summary fields url api_dt

/-! ## Persistent state (`load_state`, `save_state`, and the seen-set) -/

/-- A Python value as produced by `json.loads`: what `load_state` can
return. -/
inductive PyVal where
  | pnull : PyVal
  | pbool : Bool → PyVal
  | pint : Int → PyVal
  | pstr : String → PyVal
  | plist : List PyVal → PyVal
  | pdict : List (String × PyVal) → PyVal

/-- Dict lookup on a `PyVal` dict entry list. -/
def lookupPV : List (String × PyVal) → String → Option PyVal
  | [], _ => none
  | (k2, v) :: rest, k => if k2 = k then some v else lookupPV rest k

/-- What reading and json-decoding `state.json` can come to: the file is
absent, the read or `json.loads` raised, or `json.loads` produced a
value. -/
inductive StateFileRead where
  | absent : StateFileRead
  | unparseable : StateFileRead
  | parsed : PyVal → StateFileRead

/-- The default state `{"seen_ids": []}`. -/
def emptyState : PyVal := PyVal.pdict [("seen_ids", PyVal.plist [])]

/-- Embedding of `load_state` (script lines 31–37): the default when the file is absent
or the read/parse raises, and otherwise whatever value `json.loads`
produced — a non-dict included. -/
def load_state : StateFileRead → PyVal
  | StateFileRead.absent => emptyState
  | StateFileRead.unparseable => emptyState
  | StateFileRead.parsed v => v

/-- Python `state.get("seen_ids", [])` at script line 319: only a dict has `.get`;
on any other value the attribute access raises. -/
def stateGetSeenIds : PyVal → Except String PyVal
  | PyVal.pdict kvs =>
    Except.ok (match lookupPV kvs "seen_ids" with
               | some v => v
               | none => PyVal.plist [])
  | _ => Except.error "AttributeError: object has no attribute get"

/-- Whether a `PyVal` is hashable (may be a member of a Python `set`). -/
def pyHashable : PyVal → Bool
  | PyVal.plist _ => false
  | PyVal.pdict _ => false
  | _ => true

/-- Python `set(v)` at script line 319: iterating a list yields its elements (a
`TypeError` if one is unhashable), iterating a string its characters,
iterating a dict its keys; any other value is not iterable.  The returned
list carries the members; a Python set has no observable order or
multiplicity, so only membership in the result is meaningful. -/
def pySet : PyVal → Except String (List PyVal)
  | PyVal.plist xs =>
    if xs.all pyHashable then Except.ok xs
    else Except.error "TypeError: unhashable type"
  | PyVal.pstr s => Except.ok (s.data.map (fun c => PyVal.pstr ⟨[c]⟩))
  | PyVal.pdict kvs => Except.ok (kvs.map (fun p => PyVal.pstr p.1))
  | _ => Except.error "TypeError: object is not iterable"

/-- Embedding of `seen = set(state.get("seen_ids", []))` (script line 319), as the run
performs it on the loaded state. -/
def loadSeen (st : PyVal) : Except String (List PyVal) := do
  let v ← stateGetSeenIds st
  pySet v

/-! ## Run orchestrator (`main`, script lines 302–409)

`run` embeds `main` from the state load to the state save.  The inputs the
script obtains from the environment and the network are parameters: the
configuration, the already-loaded seen-set (`Finset String`: a Python set),
the item list returned by `fetch_news` (a fetch exception aborts `main`
before this point with nothing written), the detail-page text per item
(`none` when `fetch_news_detail_text` returned `None`), and whether
`send_email` would raise.  The `SMTP_TEST` branch returns before any of
this code runs and is outside the embedding. -/

structure Config where
  symbol : String
  lang : String
  filt : String
  mode : String
  maxNewItems : Nat
  forceSend : Bool
  dryRun : Bool
  smtpConfigured : Bool

/-- Script lines 337–342: keep the items whose extracted headline passes
`headline_matches`. -/
def filteredItems (cfg : Config) (items : List Item) : List Item :=
  items.filter (fun it => headline_matches cfg.filt cfg.mode (extract_headline it))

/-- Script lines 345–350: the new batch — filtered items whose id is not in
the loaded seen-set. -/
def newItems (cfg : Config) (seen : Finset String) (items : List Item) : List Item :=
  (filteredItems cfg items).filter (fun it => decide (extract_id it ∉ seen))

/-- Script lines 353–359: when nothing is new and `FORCE_SEND=1`, the batch
becomes the first filtered item (`filtered_items[:1]`); when additionally
nothing matched, that is empty and the run returns at line 361 just as the
return at line 359 would. -/
def finalBatch (cfg : Config) (seen : Finset String) (items : List Item) : List Item :=
  let new := newItems cfg seen items
  if new = [] ∧ cfg.forceSend then (filteredItems cfg items).take 1 else new

/-- The subject f-string of script line 387. -/
def subjectLine (symbol : String) (batchLen : Nat) : String :=
  "SET Alert (" ++ symbol ++ "): " ++ toString batchLen ++ " new item(s) [filtered]"

/-- The body of script line 388: blocks joined by a 60-dash divider. -/
def bodyText (blocks : List String) : String :=
  "\n\n" ++ String.intercalate ("\n\n" ++ String.mk (List.replicate 60 '-') ++ "\n\n") blocks

/-- The observable outcome of a run that did not raise. -/
structure RunResult where
  emailSent : Bool
  subject : Option String
  body : Option String
  persisted : Option (Finset String)
deriving DecidableEq

/-- Embedding of `main` from script line 318 to 409.  `Except.error` is an uncaught
`send_email` exception: control leaves `main` at line 396 and the
`save_state` of line 408 is never reached.  In an `Except.ok` result,
`persisted = none` means `main` returned at line 359/363 without touching
the state file, and `persisted = some s` means `save_state` wrote the
seen-set `s`. -/
def run (pick : String → String → String) (cfg : Config) (seen0 : Finset String)
    (items : List Item) (detailText : Item → Option String) (sendRaises : Bool) :
    Except String RunResult :=
  let batch := finalBatch cfg seen0 items
  if batch = [] then
    Except.ok { emailSent := false, subject := none, body := none, persisted := none }
  else
    let notify := batch.take cfg.maxNewItems
    let blocks := notify.map (fun it => itemBlock pick cfg.lang cfg.symbol it (detailText it))
    let subject := subjectLine cfg.symbol batch.length
    let body := bodyText blocks
    if cfg.smtpConfigured && !cfg.dryRun && sendRaises then
      Except.error "send_email raised"
    else
      Except.ok
        { emailSent := cfg.smtpConfigured && !cfg.dryRun
          subject := some subject
          body := some body
          persisted := some (seen0 ∪ (batch.map extract_id).toFinset) }

/-! ## Sample configurations and items (used by witnesses and counterexamples) -/

/-- A trivial stand-in for the `_pick` regex helper. -/
def pick0 : String → String → String := fun _ _ => ""

/-- A configuration with delivery unconfigured and no filter. -/
def cfgNoSmtp : Config :=
  { symbol := "KBANK", lang := "th", filt := "", mode := "exact",
    maxNewItems := 5, forceSend := false, dryRun := false, smtpConfigured := false }

/-- Delivery configured, no dry-run. -/
def cfgSmtp : Config :=
  { cfgNoSmtp with smtpConfigured := true }

/-- Delivery unconfigured with the notification cap set to zero. -/
def cfgCap0 : Config :=
  { cfgNoSmtp with symbol := "K", maxNewItems := 0 }

/-- Force-send enabled, delivery unconfigured. -/
def cfgForce : Config :=
  { cfgNoSmtp with forceSend := true }

/-- A small item with a native id and a headline. -/
def itemA : Item := [("id", JVal.jstr "1"), ("headline", JVal.jstr "H")]

/-- Item `itemA` stamped `01/01/2020`. -/
def itemT1 : Item :=
  [("id", JVal.jstr "1"), ("headline", JVal.jstr "H"), ("datetime", JVal.jstr "01/01/2020")]

/-- Item `itemA` stamped `31/12/2025`. -/
def itemT2 : Item :=
  [("id", JVal.jstr "1"), ("headline", JVal.jstr "H"), ("datetime", JVal.jstr "31/12/2025")]

/-- A field map carrying only the report date: `เรื่อง` is absent. -/
def fieldsOnlyDate : FieldMap := [("วันที่รายงานผล", "15/01/2024")]

/-- The spec-side substring relation: `needle` occurs contiguously inside
`hay`. -/
def SubstrOf (needle hay : String) : Prop :=
  ∃ p s, hay.data = p ++ needle.data ++ s

/-! ## Theorems: string machinery -/

theorem charsStartWith_iff (p l : List Char) :
    charsStartWith p l = true ↔ ∃ t, l = p ++ t := by
  induction p generalizing l with
  | nil => simp [charsStartWith]
  | cons a as ih =>
    cases l with
    | nil => simp [charsStartWith]
    | cons b bs =>
      simp only [charsStartWith, Bool.and_eq_true, beq_iff_eq, ih, List.cons_append]
      constructor
      · rintro ⟨rfl, t, rfl⟩
        exact ⟨t, rfl⟩
      · rintro ⟨t, h⟩
        injection h with h1 h2
        exact ⟨h1.symm, t, h2⟩

theorem charsContain_iff (n h : List Char) :
    charsContain n h = true ↔ ∃ p s, h = p ++ n ++ s := by
  induction h with
  | nil =>
    simp only [charsContain, List.isEmpty_iff]
    constructor
    · rintro rfl
      exact ⟨[], [], rfl⟩
    · rintro ⟨p, s, hs⟩
      have h0 : p = [] ∧ n = [] ∧ s = [] := by simpa using hs.symm
      exact h0.2.1
  | cons b bs ih =>
    simp only [charsContain, Bool.or_eq_true, charsStartWith_iff, ih]
    constructor
    · rintro (⟨t, ht⟩ | ⟨p, s, hs⟩)
      · exact ⟨[], t, by simpa using ht⟩
      · exact ⟨b :: p, s, by simp [hs]⟩
    · rintro ⟨p, s, hs⟩
      cases p with
      | nil => exact Or.inl ⟨s, by simpa using hs⟩
      | cons x xs =>
        injection hs with h1 h2
        exact Or.inr ⟨xs, s, h2⟩

theorem strContains_iff (hay needle : String) :
    strContains hay needle = true ↔ SubstrOf needle hay :=
  charsContain_iff needle.data hay.data

theorem pyStrip_empty : pyStrip "" = "" := rfl

/-! ## C3: headline filter semantics -/

/-- C3: `headline_matches` returns true whenever the filter text is empty;
with mode `"contains"` it returns true exactly when the filter text occurs
as a substring of the headline; and with a non-empty filter any mode other
than `"contains"` (the configured `"exact"` as well as unknown modes)
returns true exactly when the headline equals the filter text. -/
theorem headline_matches_spec (filt mode headline : String) :
    (filt = "" → headline_matches filt mode headline = true)
    ∧ (mode = "contains" →
        (headline_matches filt mode headline = true ↔ SubstrOf filt headline))
    ∧ (filt ≠ "" → mode ≠ "contains" →
        (headline_matches filt mode headline = true ↔ headline = filt)) := by
  refine ⟨fun h => by simp [headline_matches, h], fun hm => ?_, fun hf hm => ?_⟩
  · subst hm
    by_cases hf : filt = ""
    · subst hf
      constructor
      · intro _
        exact ⟨headline.data, [], by simp⟩
      · intro _
        simp [headline_matches]
    · simpa [headline_matches, hf] using strContains_iff headline filt
  · simp [headline_matches, hf, hm]

/-- Witness for C3, on the spec's own test values. -/
theorem headline_matches_spec_witness :
    headline_matches "" "exact" "anything" = true
    ∧ (headline_matches "Report A" "contains" "Report ABC" = true ↔ SubstrOf "Report A" "Report ABC")
    ∧ (headline_matches "Report A" "exact" "Report ABC" = true ↔ "Report ABC" = "Report A") :=
  ⟨(headline_matches_spec "" "exact" "anything").1 rfl,
   (headline_matches_spec "Report A" "contains" "Report ABC").2.1 rfl,
   (headline_matches_spec "Report A" "exact" "Report ABC").2.2 (by decide) (by decide)⟩

/-! ## C10: extracted field values are never empty -/

/-- C10: for every behaviour of the `_pick` regex helper and every page
text, the map returned by `parse_buyback_fields` binds every key to a
non-empty value — the final comprehension drops any label whose extraction
produced the empty string. -/
theorem parse_buyback_fields_values_nonempty
    (pick : String → String → String) (t : String) :
    ((parse_buyback_fields pick t).all fun p => p.2 != "") = true := by
  rw [List.all_eq_true]
  intro p hp
  simp only [parse_buyback_fields] at hp
  exact (List.mem_filter.mp hp).2

/-! ## C5: state-file corruption recovery -/

/-- C5 counterexample: a state file whose content is the valid-JSON text
`[]` is corrupt state content (the schema requires an object), yet
`load_state` returns the parsed list unchanged instead of the empty
default, and the run's next step `set(state.get("seen_ids", []))` then
raises `AttributeError` — so corrupt content does not always yield the
empty seen-set and can be fatal to the run. -/
theorem load_state_corrupt_cex :
    load_state (StateFileRead.parsed (PyVal.plist [])) = PyVal.plist []
    ∧ load_state (StateFileRead.parsed (PyVal.plist [])) ≠ emptyState
    ∧ loadSeen (PyVal.plist [])
        = Except.error "AttributeError: object has no attribute get" :=
  ⟨rfl, by simp [load_state, emptyState], rfl⟩

/-- C5 amended: an absent state file, and one whose read or JSON-parse
raises, both recover to the default `{"seen_ids": []}` and an empty
seen-set without an error; content that parses to a non-object is instead
returned unchanged and the run fails at the seen-set access (see the
counterexample). -/
theorem load_state_recovery :
    load_state StateFileRead.absent = emptyState
    ∧ load_state StateFileRead.unparseable = emptyState
    ∧ loadSeen emptyState = Except.ok [] :=
  ⟨rfl, rfl, rfl⟩

/-! ## C8: the missing-headline sentinel -/

/-- C8 counterexample: an item with none of the headline-candidate keys
yields the sentinel `"(no headline)"`, yet with the non-empty filter text
`"no"` in mode `"contains"` the sentinel does satisfy the match predicate
— it is not unmatchable under every non-empty filter. -/
theorem extract_headline_sentinel_cex :
    extract_headline [("other", JVal.jstr "x")] = "(no headline)"
    ∧ "no" ≠ ""
    ∧ headline_matches "no" "contains" "(no headline)" = true :=
  ⟨rfl, by decide, by decide⟩

/-- C8 amended: an item in which no headline-candidate key (`headline`,
`title`, `subject`) is present yields the sentinel `"(no headline)"`, and
the sentinel fails a non-empty filter match except when the filter text
actually hits it: when the filter text occurs as a substring of the
sentinel (which mode `"contains"` matches, and which in particular covers
a filter equal to the whole sentinel). -/
theorem extract_headline_sentinel (item : Item) (filt mode : String)
    (h1 : getVal item "headline" = none) (h2 : getVal item "title" = none)
    (h3 : getVal item "subject" = none)
    (hf : filt ≠ "") (hsub : ¬ SubstrOf filt "(no headline)") :
    extract_headline item = "(no headline)"
    ∧ headline_matches filt mode "(no headline)" = false := by
  constructor
  · simp [extract_headline, tryKeysStrip, h1, h2, h3]
  · by_cases hm : mode = "contains"
    · subst hm
      simp only [headline_matches, if_neg hf, if_pos rfl]
      cases hc : strContains "(no headline)" filt
      · rfl
      · exact absurd ((strContains_iff _ _).mp hc) hsub
    · simp only [headline_matches, if_neg hf, if_neg hm]
      cases he : ("(no headline)" == filt)
      · rfl
      · have : filt = "(no headline)" := (beq_iff_eq.mp he).symm
        subst this
        exact absurd ⟨[], [], by simp⟩ hsub

/-- Witness for C8 (amended): a keyless record and the filter `"zzz"`. -/
theorem extract_headline_sentinel_witness :
    extract_headline [("x", JVal.jnull)] = "(no headline)"
    ∧ headline_matches "zzz" "exact" "(no headline)" = false :=
  extract_headline_sentinel [("x", JVal.jnull)] "zzz" "exact" rfl rfl rfl (by decide)
    (fun hs => by
      have := (strContains_iff "(no headline)" "zzz").mpr hs
      exact absurd this (by decide))

/-! ## Theorems: the orchestrator's commit discipline -/

theorem newItems_nil_mem_seen {cfg : Config} {seen0 : Finset String} {items : List Item}
    (h : newItems cfg seen0 items = []) {it : Item}
    (hit : it ∈ filteredItems cfg items) : extract_id it ∈ seen0 := by
  have := List.filter_eq_nil_iff.mp h it hit
  simpa using this

theorem finalBatch_union (cfg : Config) (seen0 : Finset String) (items : List Item) :
    seen0 ∪ ((finalBatch cfg seen0 items).map extract_id).toFinset
      = seen0 ∪ ((newItems cfg seen0 items).map extract_id).toFinset := by
  simp only [finalBatch]
  split
  next hcond =>
    rw [hcond.1]
    simp only [List.map_nil, List.toFinset_nil, Finset.union_empty]
    rw [Finset.union_eq_left.mpr]
    intro x hx
    simp only [List.mem_toFinset, List.mem_map] at hx
    obtain ⟨it, hit, rfl⟩ := hx
    exact newItems_nil_mem_seen hcond.1 (List.take_subset _ _ hit)
  next => rfl

theorem run_persisted_eq (pick : String → String → String) (cfg : Config)
    (seen0 : Finset String) (items : List Item) (detailText : Item → Option String)
    (sendRaises : Bool) (r : RunResult) (p : Finset String)
    (hr : run pick cfg seen0 items detailText sendRaises = Except.ok r)
    (hp : r.persisted = some p) :
    p = seen0 ∪ ((finalBatch cfg seen0 items).map extract_id).toFinset := by
  simp only [run] at hr
  by_cases hb : finalBatch cfg seen0 items = []
  · rw [if_pos hb, Except.ok.injEq] at hr
    subst hr
    simp at hp
  · rw [if_neg hb] at hr
    by_cases hs : (cfg.smtpConfigured && !cfg.dryRun && sendRaises) = true
    · rw [if_pos hs] at hr
      exact absurd hr (by simp)
    · rw [if_neg hs, Except.ok.injEq] at hr
      subst hr
      simp only [Option.some.injEq] at hp
      exact hp.symm

/-- C1: every run that reaches the commit persists exactly the loaded
seen-set united with the ids of the full new batch (the filtered items
whose id is not in the loaded seen-set) — not merely the capped subset
that was e-mailed; consequently the loaded seen-set is a subset of the
persisted one (no id is ever removed) and every new item, capped out of
the notification or not, has its id marked seen. -/
theorem run_commit_seen_union (pick : String → String → String) (cfg : Config)
    (seen0 : Finset String) (items : List Item) (detailText : Item → Option String)
    (sendRaises : Bool) (r : RunResult) (p : Finset String)
    (hr : run pick cfg seen0 items detailText sendRaises = Except.ok r)
    (hp : r.persisted = some p) :
    p = seen0 ∪ ((newItems cfg seen0 items).map extract_id).toFinset
    ∧ seen0 ⊆ p
    ∧ ∀ it ∈ newItems cfg seen0 items, extract_id it ∈ p := by
  have hpe := run_persisted_eq pick cfg seen0 items detailText sendRaises r p hr hp
  rw [hpe, finalBatch_union]
  refine ⟨rfl, Finset.subset_union_left, fun it hit => ?_⟩
  exact Finset.mem_union_right _ (List.mem_toFinset.mpr (List.mem_map_of_mem _ hit))

/-- Witness for C1: a committed run (delivery unconfigured) over one new
item starting from an empty seen-set. -/
theorem run_commit_seen_union_witness :
    ({"1"} : Finset String) = ∅ ∪ ((newItems cfgNoSmtp ∅ [itemA]).map extract_id).toFinset
    ∧ (∅ : Finset String) ⊆ {"1"}
    ∧ ∀ it ∈ newItems cfgNoSmtp ∅ [itemA], extract_id it ∈ ({"1"} : Finset String) :=
  run_commit_seen_union pick0 cfgNoSmtp ∅ [itemA] (fun _ => none) false
    { emailSent := false
      subject := some (subjectLine "KBANK" 1)
      body := some (bodyText [itemBlock pick0 "th" "KBANK" itemA none])
      persisted := some (∅ ∪ ((finalBatch cfgNoSmtp ∅ [itemA]).map extract_id).toFinset) }
    {"1"} rfl (by decide)

/-- C2: the state file is written only after the delivery step: a run whose
batch (new, or demo after the force-send fallback) is empty terminates
successfully with no email, no message and no state write; and a run in
which `send_email` raises propagates the exception before `save_state`, so
no seen-set is persisted and, the on-disk seen-set being unchanged, the
same batch is recomputed on the next run. -/
theorem run_state_write_after_delivery (pick : String → String → String) (cfg : Config)
    (seen0 : Finset String) (items : List Item) (detailText : Item → Option String)
    (sendRaises : Bool) :
    (finalBatch cfg seen0 items = [] →
      run pick cfg seen0 items detailText sendRaises =
        Except.ok { emailSent := false, subject := none, body := none, persisted := none })
    ∧ (finalBatch cfg seen0 items ≠ [] → cfg.smtpConfigured = true → cfg.dryRun = false →
        sendRaises = true →
        run pick cfg seen0 items detailText sendRaises = Except.error "send_email raised") := by
  constructor
  · intro h
    simp [run, h]
  · intro h hs hd hraise
    simp [run, h, hs, hd, hraise]

/-- Witness for C2: an empty fetch gives a no-op run, and a raising
`send_email` on a configured run gives the propagated error. -/
theorem run_state_write_after_delivery_witness :
    run pick0 cfgNoSmtp ∅ [] (fun _ => none) false =
      Except.ok { emailSent := false, subject := none, body := none, persisted := none }
    ∧ run pick0 cfgSmtp ∅ [itemA] (fun _ => none) true = Except.error "send_email raised" :=
  ⟨(run_state_write_after_delivery pick0 cfgNoSmtp ∅ [] (fun _ => none) false).1 (by decide),
   (run_state_write_after_delivery pick0 cfgSmtp ∅ [itemA] (fun _ => none) true).2
     (by decide) rfl rfl rfl⟩

/-- C9: when the run finds nothing new, the force-send flag is set and the
filtered list is non-empty, the batch becomes `filtered_items[:1]` — the
non-empty singleton of the first filtered item, already seen as it is —
and a run that reaches the commit persists the loaded seen-set united with
that demo item's id, exactly as for a real new item: the demo item is not
excluded from the commit loop. -/
theorem run_force_send_demo (pick : String → String → String) (cfg : Config)
    (seen0 : Finset String) (items : List Item) (detailText : Item → Option String)
    (sendRaises : Bool)
    (hnew : newItems cfg seen0 items = []) (hforce : cfg.forceSend = true)
    (hne : filteredItems cfg items ≠ []) :
    finalBatch cfg seen0 items = (filteredItems cfg items).take 1
    ∧ finalBatch cfg seen0 items ≠ []
    ∧ ∀ r p, run pick cfg seen0 items detailText sendRaises = Except.ok r →
        r.persisted = some p →
        p = seen0 ∪ (((filteredItems cfg items).take 1).map extract_id).toFinset
        ∧ ∀ it ∈ (filteredItems cfg items).take 1, extract_id it ∈ p := by
  obtain ⟨h, t, hft⟩ : ∃ h t, filteredItems cfg items = h :: t := by
    cases hft : filteredItems cfg items with
    | nil => exact absurd hft hne
    | cons a l => exact ⟨a, l, rfl⟩
  have hbatch : finalBatch cfg seen0 items = (filteredItems cfg items).take 1 := by
    unfold finalBatch
    rw [if_pos ⟨hnew, hforce⟩]
  refine ⟨hbatch, ?_, ?_⟩
  · rw [hbatch, hft]
    simp
  · intro r p hr hp
    have hpe := run_persisted_eq pick cfg seen0 items detailText sendRaises r p hr hp
    rw [hpe, hbatch]
    refine ⟨rfl, fun it hit => ?_⟩
    exact Finset.mem_union_right _ (List.mem_toFinset.mpr (List.mem_map_of_mem _ hit))

/-- Witness for C9: force-send over one already-seen matching item, with
the demo commit re-adding its id. -/
theorem run_force_send_demo_witness :
    finalBatch cfgForce {"1"} [itemA] = (filteredItems cfgForce [itemA]).take 1
    ∧ finalBatch cfgForce {"1"} [itemA] ≠ []
    ∧ ∀ r p, run pick0 cfgForce {"1"} [itemA] (fun _ => none) false = Except.ok r →
        r.persisted = some p →
        p = {"1"} ∪ (((filteredItems cfgForce [itemA]).take 1).map extract_id).toFinset
        ∧ ∀ it ∈ (filteredItems cfgForce [itemA]).take 1, extract_id it ∈ p :=
  run_force_send_demo pick0 cfgForce {"1"} [itemA] (fun _ => none) false
    (by decide) rfl (by decide)

/-! ## C7: the subject line -/

/-- C7 counterexample: the composed subject embeds no date.  Two runs whose
single notified item differs only in its (well-formed, parseable-looking)
published timestamp — `01/01/2020` versus `31/12/2025` — produce
byte-identical subjects, the fixed string of symbol and count, containing
the year of neither timestamp; so no date derived from the first notified
item's timestamp (nor any fallback date) is embedded. -/
theorem run_subject_no_date_cex :
    extract_datetime itemT1 = "01/01/2020"
    ∧ extract_datetime itemT2 = "31/12/2025"
    ∧ Except.map RunResult.subject (run pick0 cfgCap0 ∅ [itemT1] (fun _ => none) false)
        = Except.ok (some (subjectLine "K" 1))
    ∧ Except.map RunResult.subject (run pick0 cfgCap0 ∅ [itemT2] (fun _ => none) false)
        = Except.ok (some (subjectLine "K" 1))
    ∧ subjectLine "K" 1 = "SET Alert (K): 1 new item(s) [filtered]"
    ∧ strContains (subjectLine "K" 1) "2020" = false
    ∧ strContains (subjectLine "K" 1) "2025" = false :=
  ⟨rfl, rfl, rfl, rfl, rfl, by decide, by decide⟩

/-- C7 amended: the subject of a delivering run is exactly
`"SET Alert (<symbol>): <n> new item(s) [filtered]"` where `<n>` is the
length of the full new (or demo) batch — not of the capped subset — and
nothing else: in particular no date appears, the subject being independent
of the items' timestamps and of the run date. -/
theorem run_subject_symbol_count (pick : String → String → String) (cfg : Config)
    (seen0 : Finset String) (items : List Item) (detailText : Item → Option String)
    (sendRaises : Bool) (r : RunResult)
    (hb : finalBatch cfg seen0 items ≠ [])
    (hr : run pick cfg seen0 items detailText sendRaises = Except.ok r) :
    r.subject = some (subjectLine cfg.symbol (finalBatch cfg seen0 items).length) := by
  simp only [run] at hr
  rw [if_neg hb] at hr
  by_cases hs : (cfg.smtpConfigured && !cfg.dryRun && sendRaises) = true
  · rw [if_pos hs] at hr
    exact absurd hr (by simp)
  · rw [if_neg hs, Except.ok.injEq] at hr
    subst hr
    rfl

/-- Witness for C7 (amended): with the cap at zero, the subject still
counts the full batch. -/
theorem run_subject_symbol_count_witness :
    ({ emailSent := false
       subject := some (subjectLine "K" 1)
       body := some (bodyText [])
       persisted := some (∅ ∪ ((finalBatch cfgCap0 ∅ [itemA]).map extract_id).toFinset) }
      : RunResult).subject
      = some (subjectLine cfgCap0.symbol (finalBatch cfgCap0 ∅ [itemA]).length) :=
  run_subject_symbol_count pick0 cfgCap0 ∅ [itemA] (fun _ => none) false _ (by decide) rfl

/-! ## C6: the composer on missing fields -/

theorem charsStartWith_false_of_ne {a b : Char} (h : ¬ a = b) (as bs : List Char) :
    charsStartWith (a :: as) (b :: bs) = false := by
  simp [charsStartWith, h]

theorem charsStartWith_head_append (c0 : Char) (a b : String)
    (h : charsStartWith [c0] a.data = true) :
    charsStartWith [c0] (a ++ b).data = true := by
  obtain ⟨t, ht⟩ := (charsStartWith_iff [c0] a.data).mp h
  rw [String.data_append, ht]
  exact (charsStartWith_iff _ _).mpr ⟨t ++ b.data, by simp⟩

theorem startsWith_false_of_head (n0 c0 : Char) (nrest : List Char) (w : String)
    (h : charsStartWith [c0] w.data = true) (hne : ¬ n0 = c0) :
    charsStartWith (n0 :: nrest) w.data = false := by
  obtain ⟨t, ht⟩ := (charsStartWith_iff [c0] w.data).mp h
  rw [ht]
  exact charsStartWith_false_of_ne hne _ _

theorem dropWhile_keeps_last (p : Char → Bool) (c : Char) (hc : p c = false)
    (l : List Char) : ∃ w, (l ++ [c]).dropWhile p = w ++ [c] := by
  induction l with
  | nil => exact ⟨[], by simp [List.dropWhile, hc]⟩
  | cons a l ih =>
    by_cases ha : p a = true
    · obtain ⟨w, hw⟩ := ih
      exact ⟨w, by simp [List.dropWhile_cons, ha, hw]⟩
    · exact ⟨a :: l, by simp [List.dropWhile_cons, ha]⟩

theorem pyStrip_data_head (c : Char) (s : List Char) (hc : isPySpace c = false) :
    ∃ z, (pyStrip (String.mk (c :: s))).data = c :: z := by
  obtain ⟨w, hw⟩ := dropWhile_keeps_last isPySpace c hc s.reverse
  refine ⟨w.reverse, ?_⟩
  simp only [pyStrip]
  rw [List.dropWhile_cons, if_neg (by simp [hc]), List.reverse_cons, hw, List.reverse_append]
  rfl

theorem pyStrip_head_of_head (c0 : Char) (w : String)
    (h : charsStartWith [c0] w.data = true) (hc : isPySpace c0 = false) :
    ∃ z, (pyStrip w).data = c0 :: z := by
  obtain ⟨t, ht⟩ := (charsStartWith_iff [c0] w.data).mp h
  have hw : w = String.mk (c0 :: t) := String.ext (by rw [ht]; rfl)
  rw [hw]
  exact pyStrip_data_head c0 t hc

theorem startsWith_false_pyStrip (n0 c0 : Char) (nrest : List Char) (w : String)
    (h : charsStartWith [c0] w.data = true) (hsp : isPySpace c0 = false)
    (hne : ¬ n0 = c0) :
    charsStartWith (n0 :: nrest) (pyStrip w).data = false := by
  obtain ⟨z, hz⟩ := pyStrip_head_of_head c0 w h hsp
  rw [hz]
  exact charsStartWith_false_of_ne hne _ _

/-- C6 amended: extraction of an empty or partial `FieldMap` never raises
(every function here is total on every `fields`), and the composer renders
no per-field placeholder.  A missing field's lines are omitted outright:
when `เรื่อง` is absent the block contains no line for it at all (no line
even begins with `เรื่อง:`), while when it is present its `เรื่อง: value`
line appears.  Presence does not guarantee rendering either: a map holding
only `จำนวนหุ้นซื้อคืน(หุ้น)` composes a block with no line for that field,
its line being nested under the `วันที่ซื้อหุ้นคืน` guard (script lines
274–279).  The only placeholders are `(no timestamp)` for a blank
timestamp and the fixed could-not-parse block of `main` for a wholly empty
map. -/
theorem format_buyback_missing_field (fields : FieldMap) (link api_dt : String) :
    (∀ v, lookupF fields "เรื่อง" = some v →
        ("เรื่อง: " ++ v) ∈ format_buyback_lines fields link api_dt)
    ∧ (lookupF fields "เรื่อง" = none →
        ∀ l ∈ format_buyback_lines fields link api_dt,
          charsStartWith "เรื่อง:".data l.data = false)
    ∧ (∀ l ∈ format_buyback_lines [("จำนวนหุ้นซื้อคืน(หุ้น)", "100")] link api_dt,
          charsStartWith "จำนวนหุ้นซื้อคืน:".data l.data = false) := by
  have hneedle : "เรื่อง:".data = 'เ' :: "รื่อง:".data := by decide
  refine ⟨?_, ?_, ?_⟩
  · intro v hv
    simp only [format_buyback_lines, hv]
    simp
  · intro hnone
    simp only [format_buyback_lines, hnone, hneedle]
    intro l hl
    simp only [List.append_assoc, List.nil_append, List.append_nil, List.mem_append,
      List.mem_cons, List.mem_singleton, List.not_mem_nil, or_false, false_or] at hl
    rcases hl with (rfl | rfl | rfl | rfl) | h | h | h | h | h | h | h
    · decide
    · exact startsWith_false_of_head 'เ' 'T' _ _
        (charsStartWith_head_append 'T' _ _ (by decide)) (by decide)
    · exact startsWith_false_of_head 'เ' 'L' _ _
        (charsStartWith_head_append 'L' _ _ (by decide)) (by decide)
    · decide
    · rcases hk : lookupF fields "วันที่รายงานผล" with _ | v
      · rw [hk] at h
        simp at h
      · rw [hk] at h
        simp only [List.mem_singleton] at h
        subst h
        exact startsWith_false_of_head 'เ' 'ว' _ _
          (charsStartWith_head_append 'ว' _ _ (by decide)) (by decide)
    · rcases hk : lookupF fields "วิธีการซื้อหุ้นคืน" with _ | v
      · rw [hk] at h
        simp at h
      · rw [hk] at h
        simp only [List.mem_singleton] at h
        subst h
        exact startsWith_false_of_head 'เ' 'ว' _ _
          (charsStartWith_head_append 'ว' _ _ (by decide)) (by decide)
    · rcases hk : lookupF fields "วันที่ครบกำหนดโครงการ" with _ | v
      · rw [hk] at h
        simp at h
      · rw [hk] at h
        simp only [List.mem_singleton] at h
        subst h
        exact startsWith_false_of_head 'เ' 'ว' _ _
          (charsStartWith_head_append 'ว' _ _ (by decide)) (by decide)
    · rcases hk : lookupF fields "วันที่คณะกรรมการมีมติ" with _ | v
      · rw [hk] at h
        simp at h
      · rw [hk] at h
        simp only [List.mem_singleton] at h
        subst h
        exact startsWith_false_of_head 'เ' 'ว' _ _
          (charsStartWith_head_append 'ว' _ _ (by decide)) (by decide)
    · split at h
      · simp at h
      · simp only [List.mem_singleton] at h
        subst h
        exact startsWith_false_pyStrip 'เ' 'ห' _ _
          (charsStartWith_head_append 'ห' _ _ (charsStartWith_head_append 'ห' _ _
            (charsStartWith_head_append 'ห' _ _ (charsStartWith_head_append 'ห' _ _
              (by decide))))) (by decide) (by decide)
    · rcases hk : lookupF fields "วันที่ซื้อหุ้นคืน" with _ | v
      · rw [hk] at h
        simp at h
      · rw [hk] at h
        simp only [List.append_assoc, List.mem_append, List.mem_cons, List.mem_singleton,
          List.not_mem_nil, or_false, false_or] at h
        rcases h with (rfl | rfl | rfl) | h | h | h
        · decide
        · decide
        · exact startsWith_false_of_head 'เ' 'ว' _ _
            (charsStartWith_head_append 'ว' _ _ (by decide)) (by decide)
        · rcases hk2 : lookupF fields "จำนวนหุ้นซื้อคืน(หุ้น)" with _ | w
          · rw [hk2] at h
            simp at h
          · rw [hk2] at h
            simp only [List.mem_singleton] at h
            subst h
            exact startsWith_false_of_head 'เ' 'จ' _ _
              (charsStartWith_head_append 'จ' _ _
                (charsStartWith_head_append 'จ' _ _ (by decide))) (by decide)
        · split at h
          · simp at h
          · simp only [List.mem_singleton] at h
            subst h
            exact startsWith_false_pyStrip 'เ' 'ช' _ _
              (charsStartWith_head_append 'ช' _ _ (charsStartWith_head_append 'ช' _ _
                (charsStartWith_head_append 'ช' _ _ (charsStartWith_head_append 'ช' _ _
                  (by decide))))) (by decide) (by decide)
        · rcases hk2 : lookupF fields "มูลค่ารวม(บาท)" with _ | w
          · rw [hk2] at h
            simp at h
          · rw [hk2] at h
            simp only [List.mem_singleton] at h
            subst h
            exact startsWith_false_of_head 'เ' 'ม' _ _
              (charsStartWith_head_append 'ม' _ _
                (charsStartWith_head_append 'ม' _ _ (by decide))) (by decide)
    · split at h
      · simp at h
      · simp only [List.append_assoc, List.mem_append, List.mem_cons, List.mem_singleton,
          List.not_mem_nil, or_false, false_or] at h
        rcases h with (rfl | rfl) | h | h
        · decide
        · decide
        · split at h
          · simp at h
          · simp only [List.mem_singleton] at h
            subst h
            exact startsWith_false_pyStrip 'เ' 'จ' _ _
              (charsStartWith_head_append 'จ' _ _ (charsStartWith_head_append 'จ' _ _
                (charsStartWith_head_append 'จ' _ _ (charsStartWith_head_append 'จ' _ _
                  (by decide))))) (by decide) (by decide)
        · split at h
          · simp at h
          · simp only [List.mem_singleton] at h
            subst h
            exact startsWith_false_of_head 'เ' 'ม' _ _
              (charsStartWith_head_append 'ม' _ _
                (charsStartWith_head_append 'ม' _ _ (by decide))) (by decide)
  · have hneedle2 : "จำนวนหุ้นซื้อคืน:".data = 'จ' :: "ำนวนหุ้นซื้อคืน:".data := by decide
    have hlines : format_buyback_lines [("จำนวนหุ้นซื้อคืน(หุ้น)", "100")] link api_dt
        = ["รายงานผลการซื้อหุ้นคืน (สรุป)",
           "Time (SET): " ++ (if api_dt = "" then "(no timestamp)" else api_dt),
           "Link: " ++ link, ""] := rfl
    rw [hlines, hneedle2]
    intro l hl
    simp only [List.mem_cons, List.not_mem_nil, or_false] at hl
    rcases hl with rfl | rfl | rfl | rfl
    · decide
    · exact startsWith_false_of_head 'จ' 'T' _ _
        (charsStartWith_head_append 'T' _ _ (by decide)) (by decide)
    · exact startsWith_false_of_head 'จ' 'L' _ _
        (charsStartWith_head_append 'L' _ _ (by decide)) (by decide)
    · decide

/-- Witness for C6 (amended): a map with the field present, one with it
absent, and the header line of the present-but-unrendered map. -/
theorem format_buyback_missing_field_witness :
    ("เรื่อง: X" : String) ∈ format_buyback_lines [("เรื่อง", "X")] "L" "T"
    ∧ charsStartWith "เรื่อง:".data
        ("รายงานผลการซื้อหุ้นคืน (สรุป)" : String).data = false
    ∧ charsStartWith "จำนวนหุ้นซื้อคืน:".data
        ("รายงานผลการซื้อหุ้นคืน (สรุป)" : String).data = false :=
  ⟨by
    have h := (format_buyback_missing_field [("เรื่อง", "X")] "L" "T").1 "X" rfl
    simpa using h,
   (format_buyback_missing_field fieldsOnlyDate "L" "T").2.1 rfl
     "รายงานผลการซื้อหุ้นคืน (สรุป)" (by decide),
   (format_buyback_missing_field fieldsOnlyDate "L" "T").2.2
     "รายงานผลการซื้อหุ้นคืน (สรุป)" (by decide)⟩

/-- C6 counterexample: for a partial `FieldMap` missing the field `เรื่อง`
(it carries only the report date), the composed block does not mention the
missing field at all — no placeholder marker, no `เรื่อง` anywhere in the
output — although it composes without error; the claim's required
"visible placeholder marker for every missing field" does not exist. -/
theorem format_buyback_no_placeholder_cex :
    lookupF fieldsOnlyDate "เรื่อง" = none
    ∧ strContains (format_buyback_summary fieldsOnlyDate "L" "T") "เรื่อง" = false :=
  ⟨rfl, by decide⟩

/-! ## C4: `extract_id` — totality, key-order invariance, fallback injectivity -/

theorem charToNat_inj {a b : Char} (h : a.toNat = b.toNat) : a = b := by
  have h2 := congrArg Char.ofNat h
  simpa [Char.ofNat_toNat] using h2

theorem charsLe_cons_iff (a b : Char) (as bs : List Char) :
    charsLe (a :: as) (b :: bs) = true ↔
      a.toNat < b.toNat ∨ (a.toNat = b.toNat ∧ charsLe as bs = true) := by
  simp only [charsLe]
  split_ifs with h1 h2
  · simp [h1]
  · simp only [false_iff]
    rintro (h | ⟨h, _⟩) <;> omega
  · have he : a.toNat = b.toNat := by omega
    simp [he]

theorem charsLe_total : ∀ x y : List Char, charsLe x y = true ∨ charsLe y x = true := by
  intro x
  induction x with
  | nil => intro y; left; rfl
  | cons a as ih =>
    intro y
    cases y with
    | nil => right; rfl
    | cons b bs =>
      rcases Nat.lt_trichotomy a.toNat b.toNat with h | h | h
      · left
        exact (charsLe_cons_iff a b as bs).mpr (Or.inl h)
      · rcases ih bs with h2 | h2
        · left
          exact (charsLe_cons_iff a b as bs).mpr (Or.inr ⟨h, h2⟩)
        · right
          exact (charsLe_cons_iff b a bs as).mpr (Or.inr ⟨h.symm, h2⟩)
      · right
        exact (charsLe_cons_iff b a bs as).mpr (Or.inl h)

theorem charsLe_trans : ∀ x y z : List Char,
    charsLe x y = true → charsLe y z = true → charsLe x z = true := by
  intro x
  induction x with
  | nil => intro y z _ _; rfl
  | cons a as ih =>
    intro y z h1 h2
    cases y with
    | nil => simp [charsLe] at h1
    | cons b bs =>
      cases z with
      | nil => simp [charsLe] at h2
      | cons c cs =>
        rcases (charsLe_cons_iff a b as bs).mp h1 with hab | ⟨hab, hab2⟩ <;>
          rcases (charsLe_cons_iff b c bs cs).mp h2 with hbc | ⟨hbc, hbc2⟩
        · exact (charsLe_cons_iff a c as cs).mpr (Or.inl (by omega))
        · exact (charsLe_cons_iff a c as cs).mpr (Or.inl (by omega))
        · exact (charsLe_cons_iff a c as cs).mpr (Or.inl (by omega))
        · exact (charsLe_cons_iff a c as cs).mpr (Or.inr ⟨by omega, ih bs cs hab2 hbc2⟩)

theorem charsLe_antisymm : ∀ x y : List Char,
    charsLe x y = true → charsLe y x = true → x = y := by
  intro x
  induction x with
  | nil =>
    intro y _ h2
    cases y with
    | nil => rfl
    | cons b bs => simp [charsLe] at h2
  | cons a as ih =>
    intro y h1 h2
    cases y with
    | nil => simp [charsLe] at h1
    | cons b bs =>
      rcases (charsLe_cons_iff a b as bs).mp h1 with hab | ⟨hab, hab2⟩ <;>
        rcases (charsLe_cons_iff b a bs as).mp h2 with hba | ⟨hba, hba2⟩
      · omega
      · omega
      · omega
      · rw [charToNat_inj hab, ih bs hab2 hba2]

theorem sortEntries_sorted (item : Item) : List.Sorted entLe (sortEntries item) := by
  haveI : IsTotal (String × JVal) entLe := ⟨fun p q => charsLe_total _ _⟩
  haveI : IsTrans (String × JVal) entLe := ⟨fun _ _ _ h1 h2 => charsLe_trans _ _ _ h1 h2⟩
  exact List.sorted_insertionSort entLe item

theorem sortEntries_eq_of_perm {it1 it2 : Item} (hk : keysNodup it1) (h : it1.Perm it2) :
    sortEntries it1 = sortEntries it2 := by
  have hperm : (sortEntries it1).Perm (sortEntries it2) :=
    (List.perm_insertionSort entLe it1).trans (h.trans (List.perm_insertionSort entLe it2).symm)
  have hk1 : ((sortEntries it1).map Prod.fst).Nodup :=
    (((List.perm_insertionSort entLe it1).map Prod.fst).nodup_iff).mpr hk
  have hk2 : ((sortEntries it2).map Prod.fst).Nodup :=
    ((hperm.symm.map Prod.fst).nodup_iff).mpr hk1
  have hs1 : List.Pairwise (fun p q : String × JVal => entLe p q ∧ p.1 ≠ q.1)
      (sortEntries it1) :=
    (sortEntries_sorted it1).and (List.pairwise_map.mp hk1)
  have hs2 : List.Pairwise (fun p q : String × JVal => entLe p q ∧ p.1 ≠ q.1)
      (sortEntries it2) :=
    (sortEntries_sorted it2).and (List.pairwise_map.mp hk2)
  haveI : IsAntisymm (String × JVal) (fun p q => entLe p q ∧ p.1 ≠ q.1) :=
    ⟨fun a b hab hba => absurd (String.ext (charsLe_antisymm _ _ hab.1 hba.1)) hab.2⟩
  exact List.eq_of_perm_of_sorted hperm hs1 hs2

theorem hexDigitChar_inj : ∀ a, a < 16 → ∀ b, b < 16 →
    hexDigitChar a = hexDigitChar b → a = b := by decide

theorem escChar_head_ne_quote (c : Char) : ∃ h t, escChar c = h :: t ∧ h ≠ '"' := by
  unfold escChar
  split_ifs with h1 h2 h3 h4 h5 h6 h7 h8
  · exact ⟨'\\', _, rfl, by decide⟩
  · exact ⟨'\\', _, rfl, by decide⟩
  · exact ⟨'\\', _, rfl, by decide⟩
  · exact ⟨'\\', _, rfl, by decide⟩
  · exact ⟨'\\', _, rfl, by decide⟩
  · exact ⟨'\\', _, rfl, by decide⟩
  · exact ⟨'\\', _, rfl, by decide⟩
  · exact ⟨'\\', _, rfl, by decide⟩
  · exact ⟨c, [], rfl, h1⟩

set_option maxHeartbeats 2000000 in
theorem escChar_append_inj (c1 c2 : Char) (r1 r2 : List Char)
    (h : escChar c1 ++ r1 = escChar c2 ++ r2) : c1 = c2 ∧ r1 = r2 := by
  have hu : ∀ a b : Char, a.toNat < 32 → b.toNat < 32 →
      hexDigitChar (a.toNat / 16) = hexDigitChar (b.toNat / 16) →
      hexDigitChar (a.toNat % 16) = hexDigitChar (b.toNat % 16) → a = b := by
    intro a b hl1 hl2 hd1 hd2
    have e1 := hexDigitChar_inj _ (by omega) _ (by omega) hd1
    have e2 := hexDigitChar_inj _ (by omega) _ (by omega) hd2
    exact charToNat_inj (by omega)
  unfold escChar at h
  split_ifs at h <;> try simp_all
  all_goals try exact absurd h.1.symm (by assumption)
  exact hu _ _ (by assumption) (by assumption) h.1 h.2.1

theorem escStr_append_quote_inj :
    ∀ (a b x y : List Char),
      escStr a ++ '"' :: x = escStr b ++ '"' :: y → a = b ∧ x = y := by
  intro a
  induction a with
  | nil =>
    intro b x y h
    cases b with
    | nil => simpa [escStr] using h
    | cons c bs =>
      obtain ⟨hc, tc, hct, hne⟩ := escChar_head_ne_quote c
      have h' : ('"' :: x : List Char) = hc :: (tc ++ (escStr bs ++ '"' :: y)) := by
        simpa [escStr, hct, List.append_assoc] using h
      have : '"' = hc := by injection h'
      exact absurd this.symm hne
  | cons c1 as ih =>
    intro b x y h
    cases b with
    | nil =>
      obtain ⟨hc, tc, hct, hne⟩ := escChar_head_ne_quote c1
      have h' : hc :: (tc ++ (escStr as ++ '"' :: x)) = ('"' :: y : List Char) := by
        simpa [escStr, hct, List.append_assoc] using h
      have : hc = '"' := by injection h'
      exact absurd this hne
    | cons c2 bs =>
      have h' : escChar c1 ++ (escStr as ++ '"' :: x) = escChar c2 ++ (escStr bs ++ '"' :: y) := by
        simpa [escStr, List.append_assoc] using h
      obtain ⟨hc, hr⟩ := escChar_append_inj _ _ _ _ h'
      obtain ⟨hab, hxy⟩ := ih bs x y hr
      exact ⟨by rw [hc, hab], hxy⟩

theorem serVal_append_inj (v1 v2 : JVal) (t1 t2 : List Char)
    (h : serVal v1 ++ t1 = serVal v2 ++ t2) : v1 = v2 ∧ t1 = t2 := by
  cases v1 with
  | jnull =>
    cases v2 with
    | jnull => exact ⟨rfl, by simpa [serVal] using h⟩
    | jstr s2 => simp [serVal] at h
  | jstr s1 =>
    cases v2 with
    | jnull => simp [serVal] at h
    | jstr s2 =>
      have h' : escStr s1.data ++ '"' :: t1 = escStr s2.data ++ '"' :: t2 := by
        simpa [serVal, List.append_assoc] using h
      obtain ⟨hs, ht⟩ := escStr_append_quote_inj _ _ _ _ h'
      exact ⟨congrArg JVal.jstr (String.ext hs), ht⟩

theorem serEntries_inj : ∀ l1 l2 : List (String × JVal),
    serEntries l1 = serEntries l2 → l1 = l2 := by
  intro l1
  induction l1 with
  | nil =>
    intro l2 h
    cases l2 with
    | nil => rfl
    | cons e es => simp [serEntries, serEntry] at h
  | cons e1 es1 ih =>
    intro l2 h
    cases l2 with
    | nil => simp [serEntries, serEntry] at h
    | cons e2 es2 =>
      obtain ⟨k1, v1⟩ := e1
      obtain ⟨k2, v2⟩ := e2
      have h' : escStr k1.data ++ '"' :: (':' :: ' ' :: (serVal v1 ++ serTail es1))
          = escStr k2.data ++ '"' :: (':' :: ' ' :: (serVal v2 ++ serTail es2)) := by
        simpa [serEntries, serEntry, List.append_assoc] using h
      obtain ⟨hk, hrest⟩ := escStr_append_quote_inj _ _ _ _ h'
      have hrest2 : serVal v1 ++ serTail es1 = serVal v2 ++ serTail es2 := by
        injection hrest with e1 hrest1
        injection hrest1
      obtain ⟨hv, ht⟩ := serVal_append_inj _ _ _ _ hrest2
      have hes : es1 = es2 := by
        cases es1 with
        | nil =>
          cases es2 with
          | nil => rfl
          | cons f fs => simp [serTail, serEntry] at ht
        | cons f fs =>
          cases es2 with
          | nil => simp [serTail, serEntry] at ht
          | cons g gs =>
            have h2 : serEntries (f :: fs) = serEntries (g :: gs) := by
              have h3 : serEntry f ++ serTail fs = serEntry g ++ serTail gs := by
                injection ht with e2 ht1
                injection ht1
              simpa [serEntries] using h3
            exact ih (g :: gs) h2
      rw [String.ext hk, hv, hes]

theorem dumpsSorted_eq_of_perm {it1 it2 : Item} (hk : keysNodup it1) (h : it1.Perm it2) :
    dumpsSorted it1 = dumpsSorted it2 := by
  unfold dumpsSorted
  rw [sortEntries_eq_of_perm hk h]

theorem dumpsSorted_inj {it1 it2 : Item} (h : dumpsSorted it1 = dumpsSorted it2) :
    it1.Perm it2 := by
  have hd : '\x7b' :: serEntries (sortEntries it1) ++ ['\x7d']
      = '\x7b' :: serEntries (sortEntries it2) ++ ['\x7d'] := congrArg String.data h
  injection hd with h1 h2
  have hs := serEntries_inj _ _ (List.append_left_injective _ h2)
  have p1 : it1.Perm (sortEntries it1) := (List.perm_insertionSort entLe it1).symm
  rw [hs] at p1
  exact p1.trans (List.perm_insertionSort entLe it2)

theorem dumpsSorted_ne_empty (item : Item) : dumpsSorted item ≠ "" := by
  intro h
  have hd : '\x7b' :: serEntries (sortEntries item) ++ ['\x7d'] = ([] : List Char) :=
    congrArg String.data h
  simp at hd

theorem getVal_eq_head_filter (item : Item) (k : String) :
    getVal item k = (List.head? (item.filter fun p => p.1 == k)).map Prod.snd := by
  induction item with
  | nil => rfl
  | cons e rest ih =>
    obtain ⟨k2, v⟩ := e
    by_cases hk : k2 = k
    · simp [getVal, hk, List.filter_cons]
    · simp [getVal, hk, List.filter_cons, ih]

theorem filter_key_length_le_one {item : Item} (hk : keysNodup item) (k : String) :
    (item.filter fun p => p.1 == k).length ≤ 1 := by
  induction item with
  | nil => simp
  | cons e rest ih =>
    have hks : (∀ x : JVal, (e.1, x) ∉ rest) ∧ (rest.map Prod.fst).Nodup := by
      simpa [keysNodup] using hk
    rw [List.filter_cons]
    split
    · next hbeq =>
      have he : e.1 = k := by simpa using hbeq
      have hnil : (rest.filter fun p => p.1 == k) = [] := by
        rw [List.filter_eq_nil_iff]
        intro p hp hpk
        have hpk2 : p.1 = k := by simpa using hpk
        have hmem : (e.1, p.2) ∈ rest := by
          rw [he, ← hpk2]
          exact hp
        exact hks.1 p.2 hmem
      simp [hnil]
    · exact ih hks.2

theorem getVal_perm {it1 it2 : Item} (hk : keysNodup it1) (h : it1.Perm it2) (k : String) :
    getVal it1 k = getVal it2 k := by
  rw [getVal_eq_head_filter, getVal_eq_head_filter]
  have hp : (it1.filter fun p => p.1 == k).Perm (it2.filter fun p => p.1 == k) := h.filter _
  have hfe : it1.filter (fun p => p.1 == k) = it2.filter (fun p => p.1 == k) := by
    cases hf : it1.filter (fun p => p.1 == k) with
    | nil =>
      rw [hf] at hp
      rw [hp.symm.eq_nil]
    | cons a t =>
      have hl1 := filter_key_length_le_one hk k
      rw [hf] at hp hl1
      have ht : t = [] := by
        rw [List.length_cons] at hl1
        exact List.length_eq_zero.mp (by omega)
      subst ht
      exact (List.perm_singleton.mp hp.symm).symm
  rw [hfe]

theorem tryKeys_congr {it1 it2 : Item} (hget : ∀ k, getVal it1 k = getVal it2 k) :
    ∀ ks, tryKeys it1 ks = tryKeys it2 ks := by
  intro ks
  induction ks with
  | nil => rfl
  | cons k ks ih => simp only [tryKeys, hget k, ih]

theorem tryKeys_some_ne_empty {item : Item} {ks : List String} {s : String}
    (h : tryKeys item ks = some s) : s ≠ "" := by
  induction ks with
  | nil => simp [tryKeys] at h
  | cons k ks ih =>
    simp only [tryKeys] at h
    rcases hg : getVal item k with _ | v
    · rw [hg] at h
      exact ih h
    · cases v with
      | jnull =>
        rw [hg] at h
        exact ih h
      | jstr str =>
        simp only [hg] at h
        by_cases hs : pyStrip str = ""
        · rw [if_pos hs] at h
          exact ih h
        · rw [if_neg hs] at h
          injection h with h1
          subst h1
          intro h0
          subst h0
          exact hs rfl

/-- C4: `extract_id` never fails and always returns a non-empty string; on a
record with duplicate-free keys it is invariant under re-ordering of the
entries, so byte-identical records in any key order yield the same id; and
the fallback serialization `dumpsSorted` is injective up to entry order —
two records serialize identically only when they carry exactly the same
key-value entries, so distinct records collide only if byte-identical. -/
theorem extract_id_spec :
    (∀ item : Item, extract_id item ≠ "")
    ∧ (∀ it1 it2 : Item, keysNodup it1 → it1.Perm it2 → extract_id it1 = extract_id it2)
    ∧ (∀ it1 it2 : Item, dumpsSorted it1 = dumpsSorted it2 → it1.Perm it2) := by
  refine ⟨?_, ?_, fun it1 it2 h => dumpsSorted_inj h⟩
  · intro item
    unfold extract_id
    rcases h1 : tryKeys item ["id", "newsId", "news_id"] with _ | s
    · rcases h2 : tryKeys item ["url", "link", "detailUrl", "detailsUrl"] with _ | s
      · exact dumpsSorted_ne_empty item
      · exact tryKeys_some_ne_empty h2
    · exact tryKeys_some_ne_empty h1
  · intro it1 it2 hk hperm
    have hget := fun k => getVal_perm hk hperm k
    unfold extract_id
    rw [tryKeys_congr hget, tryKeys_congr hget, dumpsSorted_eq_of_perm hk hperm]

/-- Witness for C4: a two-entry record with its keys swapped, the fallback
injectivity at a concrete serialization, and non-emptiness on the empty
record. -/
theorem extract_id_spec_witness :
    extract_id [("a", JVal.jstr "1"), ("b", JVal.jnull)]
      = extract_id [("b", JVal.jnull), ("a", JVal.jstr "1")]
    ∧ ([("x", JVal.jstr "1")] : Item).Perm [("x", JVal.jstr "1")]
    ∧ extract_id ([] : Item) ≠ "" :=
  ⟨extract_id_spec.2.1 [("a", JVal.jstr "1"), ("b", JVal.jnull)]
      [("b", JVal.jnull), ("a", JVal.jstr "1")] (by unfold keysNodup; decide) (by decide),
   extract_id_spec.2.2 [("x", JVal.jstr "1")] [("x", JVal.jstr "1")] rfl,
   extract_id_spec.1 []⟩
